import Mathlib

/-!
Shallow embedding of the two scripts in `scripts/folddisco_pipeline/`:
`generate_folddisco_input.py` (manifest generator) and
`combine_motif_outputs.py` (output combiner).

Python strings are modelled as Lean `String`s, with the string operations
implemented structurally over the underlying character list so that all
definitions evaluate by kernel reduction.  Python `float` values are
modelled as `ℚ` (all scores appearing in this pipeline are finite decimal
literals); a Python `NaN` score is modelled as `none` in `Option ℚ`.
Python's stable `list.sort` / `sorted` is modelled by `List.insertionSort`,
which is likewise stable, and therefore produces the same list for the
same key function.
-/

/-! ### Character-level string helpers -/

/-- Whitespace characters stripped by Python `str.strip()`. -/
def isPyWs (c : Char) : Bool :=
  c = ' ' || c = '\t' || c = '\n' || c = '\r' || c = '\x0b' || c = '\x0c'

/-- Python `s.strip()` on the character list. -/
def pyStripL (l : List Char) : List Char :=
  ((l.dropWhile isPyWs).reverse.dropWhile isPyWs).reverse

/-- Python `s.strip()`. -/
def pyStrip (s : String) : String :=
  ⟨pyStripL s.data⟩

/-- Python `s.split(sep)` for a one-character separator: splits at every
occurrence, keeping empty fields. -/
def splitOnChar (sep : Char) : List Char → List (List Char)
  | [] => [[]]
  | c :: rest =>
    let r := splitOnChar sep rest
    if c = sep then [] :: r
    else
      match r with
      | [] => [[c]]
      | h :: t => (c :: h) :: t

/-- String-level version of `splitOnChar`. -/
def splitS (sep : Char) (s : String) : List String :=
  (splitOnChar sep s.data).map String.mk

/-- Python `s.lower()` (ASCII case folding, as used by these scripts). -/
def sToLower (s : String) : String :=
  ⟨s.data.map Char.toLower⟩

/-- Python `s.endswith(t)`. -/
def sEndsWith (s t : String) : Bool :=
  t.data.isSuffixOf s.data

/-- Python `s.startswith(t)`. -/
def sStartsWith (s t : String) : Bool :=
  t.data.isPrefixOf s.data

/-- Python `s[:-n]` for `n ≥ 0`: drop the last `n` characters. -/
def sDropRight (s : String) (n : ℕ) : String :=
  ⟨s.data.take (s.data.length - n)⟩

/-- Python `s.rsplit(sep, 1)[-1]` for a one-character separator: the part
after the last occurrence of `sep` (the whole string if absent).  Used to
model `os.path.basename` and basename stripping of `'/'`-paths. -/
def afterLastSep (sep : Char) (s : String) : String :=
  (splitS sep s).getLastD s

/-- Python `s.rsplit(sep, 1)[0]` for a one-character separator: the part
before the last occurrence of `sep` (the whole string if absent). -/
def beforeLastSep (sep : Char) (s : String) : String :=
  let parts := splitS sep s
  if parts.length ≤ 1 then s
  else String.intercalate (String.mk [sep]) parts.dropLast

/-! ### Manifest generator: `generate_folddisco_input.py` -/

/-- A Python float score; `none` models `float('nan')` (a failed parse in
`read_scores`). -/
abbrev Score := Option ℚ

/-- The value `select_indices` sorts by: `NaN` is replaced by `-1e9`. -/
def scoreVal : Score → ℚ
  | none => -(1000000000 : ℚ)
  | some v => v

/-- Python `enumerate(scores, start=i)` combined with the NaN replacement:
the list of `(index, value)` pairs built at the top of `select_indices`. -/
def withIdx : ℕ → List Score → List (ℕ × ℚ)
  | _, [] => []
  | i, s :: rest => (i, scoreVal s) :: withIdx (i + 1) rest

/-- Python `l[:k]` where `k` may be any integer (negative indices count
from the end). -/
def pyTake {α : Type} (l : List α) (k : ℤ) : List α :=
  if 0 ≤ k then l.take k.toNat else l.take ((l.length : ℤ) + k).toNat

/-- Sort key for `indexed.sort(key=lambda t: t[1], reverse=True)`:
descending by score; a stable sort with this relation reproduces
Python's stable descending sort. -/
def descRel (a b : ℕ × ℚ) : Prop := b.2 ≤ a.2

instance : DecidableRel descRel :=
  fun a b => inferInstanceAs (Decidable (b.2 ≤ a.2))

/-- `select_indices(scores, percent, min_res)` from
`generate_folddisco_input.py`: rank 1-based residue indices by score
(NaN lowest), keep the top `max(min_res, ceil(len*percent/100))`. -/
def select_indices (scores : List Score) (percent : ℚ) (min_res : ℤ) : List ℕ :=
  let indexed := withIdx 1 scores
  if indexed = [] then []
  else
    let sorted := indexed.insertionSort descRel
    let k : ℤ := max min_res ⌈(indexed.length : ℚ) * (percent / 100)⌉
    (pyTake sorted k).map Prod.fst

/-- A motif token emitted by `collapse_ranges`: either `<chain><i>` or
`<chain><lo>-<hi>`. -/
inductive Token where
  | single (chain : String) (i : ℕ)
  | closed (chain : String) (lo hi : ℕ)
deriving DecidableEq, Repr

/-- The string the generator writes for a token (`f"{chain}{start}"` or
`f"{chain}{start}-{prev}"`). -/
def Token.render : Token → String
  | .single c i => c ++ toString i
  | .closed c lo hi => c ++ toString lo ++ "-" ++ toString hi

/-- The set of residue indices a token denotes (a closed range includes
both endpoints). -/
def Token.expand : Token → List ℕ
  | .single _ i => [i]
  | .closed _ lo hi => List.range' lo (hi - lo + 1)

/-- Python `sorted(set(indices))`: the distinct indices in ascending
order. -/
def sortedSet (indices : List ℕ) : List ℕ :=
  (indices.dedup).insertionSort (· ≤ ·)

/-- The token emitted when a run `start..prev` is closed in
`collapse_ranges`. -/
def mkTok (chain : String) (start prev : ℕ) : Token :=
  if start = prev then .single chain start else .closed chain start prev

/-- The `for x in indices[1:]` loop of `collapse_ranges`, carrying the
current run `start..prev`. -/
def collapseLoop (chain : String) (start prev : ℕ) : List ℕ → List Token
  | [] => [mkTok chain start prev]
  | x :: rest =>
    if x = prev + 1 then collapseLoop chain start x rest
    else mkTok chain start prev :: collapseLoop chain x x rest

/-- `collapse_ranges(chain, indices)` from `generate_folddisco_input.py`. -/
def collapse_ranges (chain : String) (indices : List ℕ) : List Token :=
  match sortedSet indices with
  | [] => []
  | h :: t => collapseLoop chain h h t

/-- A one-character alphanumeric string (`len(c)==1 and (c.isalpha() or
c.isdigit())`). -/
def singleAlnum (s : String) : Bool :=
  match s.data with
  | [ch] => ch.isAlpha || ch.isDigit
  | _ => false

/-- `extract_chain(id_str)`: text after the last underscore if it is a
single letter/digit; otherwise the trailing character if alphanumeric;
otherwise `"A"`. -/
def extract_chain (id_str : String) : String :=
  let fallback :=
    match id_str.data.getLast? with
    | some ch => if ch.isAlpha || ch.isDigit then String.mk [ch] else "A"
    | none => "A"
  if id_str.data.contains '_' then
    let c := (splitS '_' id_str).getLastD ""
    if singleAlnum c then c else fallback
  else fallback

/-- `base_id(id_str)`: strip a trailing underscore plus single chain
letter/digit if present, else return unchanged. -/
def base_id (id_str : String) : String :=
  if id_str.data.contains '_' then
    let parts := splitS '_' id_str
    if singleAlnum (parts.getLastD "") then
      String.intercalate "_" parts.dropLast
    else id_str
  else id_str

/-- One `base_id` bucket of the merged-mode `chain_sel_map`
(`defaultdict(list)`): append to an existing key's list, else add the key
at the end (Python dict insertion order). -/
def upsert (m : List (String × List (String × List ℕ))) (key : String)
    (v : String × List ℕ) : List (String × List (String × List ℕ)) :=
  match m with
  | [] => [(key, [v])]
  | (k, vs) :: rest =>
    if k = key then (k, vs ++ [v]) :: rest else (k, vs) :: upsert rest key v

/-- The merged-mode grouping loop of `main`: for each `(id, scores)` with
non-empty scores and non-empty selection, record
`(extract_chain id, selection)` under `base_id id`. -/
def chainSelMap (percent : ℚ) (min_res : ℤ) (items : List (String × List Score)) :
    List (String × List (String × List ℕ)) :=
  items.foldl
    (fun acc item =>
      if item.2 = [] then acc
      else
        let sel := select_indices item.2 percent min_res
        if sel = [] then acc
        else upsert acc (base_id item.1) (extract_chain item.1, sel))
    []

/-- The merged-mode manifest rows of `main`, abstracted to the
`(base_id, motif)` columns: each chain's selection is collapsed
separately and the rendered tokens are comma-joined. -/
def mergedRows (percent : ℚ) (min_res : ℤ) (items : List (String × List Score)) :
    List (String × String) :=
  (chainSelMap percent min_res items).map
    (fun b =>
      (b.1,
        String.intercalate ","
          (b.2.flatMap (fun cl => (collapse_ranges cl.1 cl.2).map Token.render))))

/-! ### Output combiner: `combine_motif_outputs.py` -/

/-- `STRUCT_EXTS` from `combine_motif_outputs.py`. -/
def STRUCT_EXTS : List String := [".pdb", ".cif", ".ent", ".gz"]

/-- One iteration of the `for ext in STRUCT_EXTS` body inside the
extension-stripping `while` loop of `cleanup_id`: threads the current
string through the remaining extensions and reports whether anything was
stripped (`done = False`). -/
def extPass : String → List String → String × Bool
  | x, [] => (x, false)
  | x, ext :: rest =>
    if sEndsWith (sToLower x) ext then
      ((extPass (sDropRight x ext.length) rest).1, true)
    else extPass x rest

/-- The `while not done` extension-stripping loop of `cleanup_id`, with
explicit fuel.  Each stripping pass removes at least one character, so
fuel `x.length + 1` never runs out. -/
def stripExtsFuel : ℕ → String → String
  | 0, x => x
  | n + 1, x =>
    let r := extPass x STRUCT_EXTS
    if r.2 then stripExtsFuel n r.1 else x

/-- Repeatedly strip recognized structure-file extensions. -/
def stripExts (x : String) : String :=
  stripExtsFuel (x.data.length + 1) x

/-- The normalization part of `cleanup_id` (everything before the lookup
logic): strip whitespace, keep only the basename, strip extensions,
optionally lowercase. -/
def cleanNorm (raw : String) (lower : Bool) : String :=
  let x := pyStrip raw
  let x := afterLastSep '/' x
  let x := stripExts x
  if lower then sToLower x else x

/-- `cleanup_id(raw, lower, lookup)` from `combine_motif_outputs.py`. -/
def cleanup_id (raw : String) (lower : Bool) (lookup : Option (List String)) :
    Option String :=
  let x := cleanNorm raw lower
  match lookup with
  | none => some x
  | some L =>
    if x ∈ L then some x
    else if sEndsWith x "_" = false ∧ (x ++ "_") ∈ L then some (x ++ "_")
    else if sEndsWith x "_" = true ∧ sDropRight x 1 ∈ L then some (sDropRight x 1)
    else none

/-- `extract_query_id(path)`: `basename(path).rsplit('_', 1)[0]`. -/
def extract_query_id (path : String) : String :=
  beforeLastSep '_' (afterLastSep '/' path)

/-- Split at every character satisfying `p`, keeping empty fields. -/
def splitOnPred (p : Char → Bool) : List Char → List (List Char)
  | [] => [[]]
  | c :: rest =>
    let r := splitOnPred p rest
    if p c then [] :: r
    else
      match r with
      | [] => [[c]]
      | h :: t => (c :: h) :: t

/-- Python `s.split()` (split on whitespace runs, dropping empties). -/
def wsSplit (s : String) : List String :=
  ((splitOnPred isPyWs s.data).map String.mk).filter (fun p => p ≠ "")

/-- Combiner flags and column options (from `parse_args`), with the same
defaults as the script. -/
structure CombineArgs where
  lookup : Option (List String) := none
  keep_nonlookup : Bool := false
  no_lower : Bool := false
  keep_selfhits : Bool := false
  target_col : ℕ := 0
  score_col : ℕ := 1
  min_fields : ℕ := 2
  whitespace : Bool := false

/-- One line of `iter_motif_lines`: `none` when the line is blank, a
comment, has too few fields, or the column indices are out of range;
otherwise the `(target, score)` field pair. -/
def iter_motif_lines (a : CombineArgs) (line : String) : Option (String × String) :=
  let stripped := pyStrip line
  if stripped = "" then none
  else if sStartsWith stripped "#" then none
  else
    let parts :=
      if a.whitespace then wsSplit stripped
      else
        let tparts := splitS '\t' stripped
        if tparts.length < a.min_fields then wsSplit stripped else tparts
    if parts.length < a.min_fields then none
    else if a.target_col ≥ parts.length ∨ a.score_col ≥ parts.length then none
    else some (parts.getD a.target_col "", parts.getD a.score_col "")

/-- Numeric value of a digit run. -/
def digitsVal (l : List Char) : ℕ :=
  l.foldl (fun a c => 10 * a + (c.toNat - 48)) 0

/-- Exponent suffix of a float literal (`e`/`E`, optional sign, digits);
`some 0` for the empty remainder, `none` on anything malformed. -/
def parseExp : List Char → Option ℤ
  | [] => some 0
  | c :: r =>
    if c = 'e' ∨ c = 'E' then
      let p : ℤ × List Char :=
        match r with
        | '+' :: r3 => (1, r3)
        | '-' :: r3 => (-1, r3)
        | r3 => (1, r3)
      let ds := p.2.takeWhile Char.isDigit
      if ds = [] ∨ p.2.dropWhile Char.isDigit ≠ [] then none
      else some (p.1 * (digitsVal ds : ℤ))
    else none

/-- Model of Python `float(s)` on finite decimal literals (optional sign,
integer and/or fractional digits, optional exponent, surrounding
whitespace): `none` models the `ValueError` branch.  Special forms such
as `inf`/`nan` (not representable in `ℚ`) and digit-group underscores are
outside the model; they do not occur in this pipeline's score columns. -/
def pyFloat (s : String) : Option ℚ :=
  let cs := pyStripL s.data
  let p : ℚ × List Char :=
    match cs with
    | '+' :: r => (1, r)
    | '-' :: r => (-1, r)
    | r => (1, r)
  let ip := p.2.takeWhile Char.isDigit
  let rest := p.2.dropWhile Char.isDigit
  match rest with
  | '.' :: r2 =>
    let fp := r2.takeWhile Char.isDigit
    let rest2 := r2.dropWhile Char.isDigit
    if ip = [] ∧ fp = [] then none
    else
      (parseExp rest2).map
        (fun e => p.1 * ((digitsVal ip : ℚ) + (digitsVal fp : ℚ) / 10 ^ fp.length) * (10 : ℚ) ^ e)
  | rest2 =>
    if ip = [] then none
    else (parseExp rest2).map (fun e => p.1 * (digitsVal ip : ℚ) * (10 : ℚ) ^ e)

/-- Helper for `stripOneExt`. -/
def stripOneExtGo (x : String) : List String → String
  | [] => x
  | ext :: rest =>
    if sEndsWith (sToLower x) ext then sDropRight x ext.length
    else stripOneExtGo x rest

/-- First-match-only extension strip of the fallback branch in `main`
(the `for ext ...: ... break` loop). -/
def stripOneExt (x : String) : String :=
  stripOneExtGo x STRUCT_EXTS

/-- The fallback target ID used in `main` when `cleanup_id` returns
`None` but unresolved IDs are kept: basename, a single extension strip
(the loop `break`s after the first match), optional lowercase. -/
def targetFallback (target_raw : String) (lower : Bool) : String :=
  let f := pyStrip target_raw
  let f := afterLastSep '/' f
  let f := stripOneExt f
  if lower then sToLower f else f

/-- Target-ID resolution in the `main` loop: `cleanup_id`, falling back
to the best-effort literal when unresolved IDs are kept; `none` means the
line is dropped as lookup-unresolvable. -/
def tCleanOf (a : CombineArgs) (traw : String) : Option String :=
  match cleanup_id traw (!a.no_lower) a.lookup with
  | some t => some t
  | none =>
    if a.lookup.isSome ∧ a.keep_nonlookup = false then none
    else some (targetFallback traw (!a.no_lower))

/-- Processing of one raw motif line in the `main` loop, for an already
resolved query ID `q`: field extraction, target cleanup (with the
keep-nonlookup fallback), self-hit filtering, score validation.  `none`
means the line produces no output record. -/
def lineRecord (a : CombineArgs) (q : String) (line : String) :
    Option (String × String × ℚ) :=
  match iter_motif_lines a line with
  | none => none
  | some ts =>
    match tCleanOf a ts.1 with
    | none => none
    | some t =>
      if a.keep_selfhits = false ∧ q = t then none
      else
        match pyFloat ts.2 with
        | none => none
        | some v => some (q, t, v)

/-- Query-ID resolution at the top of the per-file loop in `main`:
`none` means the whole file is skipped. -/
def queryId (a : CombineArgs) (fname : String) : Option String :=
  let qRaw := extract_query_id fname
  match cleanup_id qRaw (!a.no_lower) a.lookup with
  | some q => some q
  | none =>
    if a.lookup.isSome ∧ a.keep_nonlookup = false then none
    else some (if !a.no_lower then sToLower qRaw else qRaw)

/-- All records the combiner emits for one motif file, given its name and
raw lines. -/
def processFile (a : CombineArgs) (fname : String) (lines : List String) :
    List (String × String × ℚ) :=
  match queryId a fname with
  | none => []
  | some q => lines.filterMap (lineRecord a q)

/-- All records the combiner emits for a list of files (the output rows,
as `(query_id, target_id, score)` triples). -/
def combine (a : CombineArgs) (files : List (String × List String)) :
    List (String × String × ℚ) :=
  files.flatMap (fun f => processFile a f.1 f.2)

/-! ### Proofs -/

attribute [local semireducible] Rat.mul Rat.inv Rat.add Rat.sub Rat.ofScientific

theorem withIdx_length (i : ℕ) (l : List Score) : (withIdx i l).length = l.length := by
  induction l generalizing i with
  | nil => rfl
  | cons s rest ih => simp [withIdx, ih]

theorem withIdx_map_fst (i : ℕ) (l : List Score) :
    (withIdx i l).map Prod.fst = List.range' i l.length := by
  induction l generalizing i with
  | nil => rfl
  | cons s rest ih => simp [withIdx, List.range'_succ, ih]

theorem withIdx_eq_nil (i : ℕ) (l : List Score) : withIdx i l = [] ↔ l = [] := by
  cases l <;> simp [withIdx]

theorem select_indices_spec (scores : List Score) (percent : ℚ) (min_res : ℤ)
    (hm : 0 ≤ min_res) (hp : 0 ≤ percent) :
    ((select_indices scores percent min_res).length : ℤ)
        = min (scores.length : ℤ)
            (max min_res ⌈(scores.length : ℚ) * (percent / 100)⌉)
      ∧ (∀ i ∈ select_indices scores percent min_res, 1 ≤ i ∧ i ≤ scores.length)
      ∧ (select_indices scores percent min_res).Nodup := by
  have hc : 0 ≤ ⌈(scores.length : ℚ) * (percent / 100)⌉ :=
    Int.ceil_nonneg (mul_nonneg (Nat.cast_nonneg _) (div_nonneg hp (by norm_num)))
  rcases eq_or_ne scores [] with rfl | hne
  · have h0 : select_indices ([] : List Score) percent min_res = [] := rfl
    refine ⟨?_, ?_, ?_⟩
    · rw [h0]
      simp only [List.length_nil, Nat.cast_zero, zero_mul, Int.ceil_zero]
      omega
    · intro i hi
      rw [h0] at hi
      cases hi
    · rw [h0]
      exact List.nodup_nil
  · have hidx : ¬ (withIdx 1 scores = []) := by
      rw [withIdx_eq_nil]; exact hne
    have hk0 : (0:ℤ) ≤ max min_res ⌈((withIdx 1 scores).length : ℚ) * (percent / 100)⌉ :=
      le_trans hm (le_max_left _ _)
    have hsel : select_indices scores percent min_res
        = (((withIdx 1 scores).insertionSort descRel).take
            (max min_res ⌈((withIdx 1 scores).length : ℚ) * (percent / 100)⌉).toNat).map
            Prod.fst := by
      simp only [select_indices, if_neg hidx, pyTake, if_pos hk0]
    have hlen : ((withIdx 1 scores).insertionSort descRel).length = scores.length := by
      rw [List.length_insertionSort, withIdx_length]
    have hperm : List.Perm (((withIdx 1 scores).insertionSort descRel).map Prod.fst)
        (List.range' 1 scores.length) := by
      have h := (List.perm_insertionSort descRel (withIdx 1 scores)).map Prod.fst
      rwa [withIdx_map_fst] at h
    have hql : ((withIdx 1 scores).length : ℚ) = (scores.length : ℚ) := by
      rw [withIdx_length]
    refine ⟨?_, ?_, ?_⟩
    · rw [hsel, List.length_map, List.length_take, hlen, hql]
      rw [Nat.cast_min]
      rw [Int.toNat_of_nonneg (hql ▸ hk0)]
      rw [min_comm]
    · intro i hi
      rw [hsel, List.map_take] at hi
      have hi2 : i ∈ ((withIdx 1 scores).insertionSort descRel).map Prod.fst :=
        List.mem_of_mem_take hi
      have hi3 : i ∈ List.range' 1 scores.length := hperm.mem_iff.mp hi2
      rw [List.mem_range'] at hi3
      obtain ⟨j, hj, rfl⟩ := hi3
      omega
    · rw [hsel, List.map_take]
      exact List.Nodup.sublist (List.take_sublist _ _)
        (hperm.nodup_iff.mpr (List.nodup_range' _ _))

theorem expand_mkTok (c : String) (start prev : ℕ) (h : start ≤ prev) :
    (mkTok c start prev).expand = List.range' start (prev - start + 1) := by
  unfold mkTok
  split
  · rename_i heq
    subst heq
    simp [Token.expand]
  · rfl

theorem collapseLoop_expand (c : String) :
    ∀ (l : List ℕ) (start prev : ℕ), start ≤ prev →
      List.Sorted (· < ·) (prev :: l) →
      (collapseLoop c start prev l).flatMap Token.expand
        = List.range' start (prev - start + 1) ++ l := by
  intro l
  induction l with
  | nil =>
    intro start prev h _
    simp [collapseLoop, expand_mkTok c start prev h]
  | cons x rest ih =>
    intro start prev h hs
    have hpx : prev < x := (List.sorted_cons.mp hs).1 x (List.mem_cons_self x rest)
    have hs2 : List.Sorted (· < ·) (x :: rest) := (List.sorted_cons.mp hs).2
    rw [collapseLoop]
    by_cases hx : x = prev + 1
    · rw [if_pos hx]
      rw [ih start x (by omega) hs2]
      have h1 : x - start + 1 = (prev - start + 1) + 1 := by omega
      rw [h1, List.range'_concat]
      have h2 : start + 1 * (prev - start + 1) = x := by omega
      rw [h2, List.append_assoc, List.singleton_append]
    · rw [if_neg hx]
      rw [List.flatMap_cons, expand_mkTok c start prev h, ih x x le_rfl hs2]
      have h3 : x - x + 1 = 1 := by omega
      rw [h3, List.range'_one, List.singleton_append]

theorem sortedSet_sorted (l : List ℕ) : List.Sorted (· < ·) (sortedSet l) := by
  have hs : List.Sorted (· ≤ ·) (sortedSet l) := List.sorted_insertionSort _ _
  have hn : (sortedSet l).Nodup :=
    ((List.perm_insertionSort _ _).nodup_iff).mpr (List.nodup_dedup l)
  exact hs.lt_of_le hn

theorem sortedSet_mem (l : List ℕ) (i : ℕ) : i ∈ sortedSet l ↔ i ∈ l := by
  unfold sortedSet
  rw [(List.perm_insertionSort (· ≤ ·) l.dedup).mem_iff]
  exact List.mem_dedup

theorem collapse_expand (c : String) (indices : List ℕ) :
    (collapse_ranges c indices).flatMap Token.expand = sortedSet indices := by
  unfold collapse_ranges
  rcases hss : sortedSet indices with _ | ⟨h, t⟩
  · rfl
  · have hs : List.Sorted (· < ·) (h :: t) := hss ▸ sortedSet_sorted indices
    rw [collapseLoop_expand c t h h le_rfl hs]
    have h1 : h - h + 1 = 1 := by omega
    rw [h1, List.range'_one, List.singleton_append]

/-- C1, counterexample: for the one-score row `[1.0]` with percent 50 and
min_residues 5, `select_indices` returns a single index, not
`max(min_residues, ceil(N*P/100)) = 5` — the slice `indexed[:k]`
truncates at the row length. -/
theorem select_indices_count_claim_false :
    select_indices [some 1] 50 5 = [1]
      ∧ ((select_indices [some 1] 50 5).length : ℤ)
          ≠ max 5 ⌈((([some 1] : List Score).length : ℚ)) * ((50:ℚ) / 100)⌉ := by
  constructor
  · decide
  · decide

/-- C1 (amended): for every score row of length `N ≥ 1`, nonnegative
percentage `P` and nonnegative floor `min_residues`, `select_indices`
returns `min(N, max(min_residues, ceil(N*P/100)))` indices, all in
`[1, N]`. -/
theorem select_indices_count_and_range (scores : List Score) (percent : ℚ)
    (min_res : ℤ) (hne : scores ≠ []) (hm : 0 ≤ min_res) (hp : 0 ≤ percent) :
    ((select_indices scores percent min_res).length : ℤ)
        = min (scores.length : ℤ)
            (max min_res ⌈(scores.length : ℚ) * (percent / 100)⌉)
      ∧ ∀ i ∈ select_indices scores percent min_res, 1 ≤ i ∧ i ≤ scores.length :=
  ⟨(select_indices_spec scores percent min_res hm hp).1,
    (select_indices_spec scores percent min_res hm hp).2.1⟩

/-- Witness for `select_indices_count_and_range` at the row `[1.0, 2.0]`,
percent 50, min_residues 1. -/
theorem select_indices_count_and_range_witness :
    (([some 1, some 2] : List Score) ≠ [] ∧ (0:ℤ) ≤ 1 ∧ (0:ℚ) ≤ 50)
      ∧ (((select_indices [some 1, some 2] 50 1).length : ℤ)
            = min (([some 1, some 2] : List Score).length : ℤ)
                (max 1 ⌈((([some 1, some 2] : List Score).length : ℚ)) * ((50:ℚ) / 100)⌉)
          ∧ ∀ i ∈ select_indices [some 1, some 2] 50 1,
              1 ≤ i ∧ i ≤ ([some 1, some 2] : List Score).length) :=
  ⟨⟨by decide, by decide, by decide⟩,
    select_indices_count_and_range [some 1, some 2] 50 1 (by decide) (by decide)
      (by decide)⟩

/-- C9: `select_indices` returns pairwise-distinct indices, never more
than `N` of them; the length equals
`min(N, max(min_residues, ceil(N*percent/100)))`, and when `min_residues`
exceeds `N` exactly `N` indices are returned. -/
theorem select_indices_distinct_truncated (scores : List Score) (percent : ℚ)
    (min_res : ℤ) (hm : 0 ≤ min_res) (hp : 0 ≤ percent) :
    (select_indices scores percent min_res).Nodup
      ∧ (select_indices scores percent min_res).length ≤ scores.length
      ∧ ((select_indices scores percent min_res).length : ℤ)
          = min (scores.length : ℤ)
              (max min_res ⌈(scores.length : ℚ) * (percent / 100)⌉)
      ∧ ((scores.length : ℤ) < min_res
          → (select_indices scores percent min_res).length = scores.length) := by
  obtain ⟨h1, _, h3⟩ := select_indices_spec scores percent min_res hm hp
  refine ⟨h3, by omega, h1, by omega⟩

/-- Witness for `select_indices_distinct_truncated` at the one-score row
`[1.0]` with min_residues 5 (exceeding the row length). -/
theorem select_indices_distinct_truncated_witness :
    ((0:ℤ) ≤ 5 ∧ (0:ℚ) ≤ 50)
      ∧ ((select_indices [some 1] 50 5).Nodup
          ∧ (select_indices [some 1] 50 5).length ≤ ([some 1] : List Score).length
          ∧ ((select_indices [some 1] 50 5).length : ℤ)
              = min ((([some 1] : List Score).length : ℤ))
                  (max 5 ⌈((([some 1] : List Score).length : ℚ)) * ((50:ℚ) / 100)⌉)
          ∧ ((([some 1] : List Score).length : ℤ) < 5
              → (select_indices [some 1] 50 5).length = ([some 1] : List Score).length)) :=
  ⟨⟨by decide, by decide⟩,
    select_indices_distinct_truncated [some 1] 50 5 (by decide) (by decide)⟩

/-- C3: expanding the tokens emitted by `collapse_ranges` reproduces
exactly the sorted, duplicate-free set of the input indices, in ascending
order (the expansion is strictly increasing and has the same members as
the input list). -/
theorem collapse_ranges_roundtrip (c : String) (indices : List ℕ) :
    List.Sorted (· < ·) ((collapse_ranges c indices).flatMap Token.expand)
      ∧ ∀ i, i ∈ (collapse_ranges c indices).flatMap Token.expand ↔ i ∈ indices := by
  rw [collapse_expand]
  exact ⟨sortedSet_sorted indices, fun i => sortedSet_mem indices i⟩

theorem select_indices_ne_nil (scores : List Score) (percent : ℚ) (min_res : ℤ)
    (hne : scores ≠ []) (hm : 1 ≤ min_res) (hp : 0 ≤ percent) :
    select_indices scores percent min_res ≠ [] := by
  have h := (select_indices_spec scores percent min_res (by omega) hp).1
  intro hnil
  rw [hnil] at h
  have hN : 0 < scores.length := List.length_pos.mpr hne
  simp only [List.length_nil, Nat.cast_zero] at h
  omega

theorem chainSelMap_pair (rowA rowB : List Score) (hA : rowA ≠ []) (hB : rowB ≠ [])
    (hsA : select_indices rowA 50 1 ≠ []) (hsB : select_indices rowB 50 1 ≠ []) :
    chainSelMap 50 1 [("d1twfa__A", rowA), ("d1twfa__B", rowB)]
      = [("d1twfa_",
          [("A", select_indices rowA 50 1), ("B", select_indices rowB 50 1)])] := by
  have hbA : base_id "d1twfa__A" = "d1twfa_" := by decide
  have hbB : base_id "d1twfa__B" = "d1twfa_" := by decide
  have hcA : extract_chain "d1twfa__A" = "A" := by decide
  have hcB : extract_chain "d1twfa__B" = "B" := by decide
  unfold chainSelMap
  simp only [List.foldl_cons, List.foldl_nil]
  rw [if_neg hA, if_neg hsA, if_neg hB, if_neg hsB, hbA, hbB, hcA, hcB]
  simp [upsert]

/-- C2, counterexample: the merged-mode grouping key for the identifiers
`d1twfa__A` / `d1twfa__B` is `"d1twfa_"` (only the final `_A` chain
suffix is stripped by `base_id`), not the claimed `"d1twfa"`. -/
theorem merged_base_claim_false :
    mergedRows 50 1 [("d1twfa__A", [some 1, some 0]), ("d1twfa__B", [some 1, some 0])]
        = [("d1twfa_", "A1,B1")]
      ∧ base_id "d1twfa__A" = "d1twfa_"
      ∧ ("d1twfa_" : String) ≠ "d1twfa" := by
  refine ⟨by decide, by decide, by decide⟩

/-- C2 (amended): in merged (default) mode, `["d1twfa__A", "d1twfa__B"]`
with aligned non-empty score rows and percent 50 are grouped under the
base identifier `"d1twfa_"` (trailing underscore retained) and produce
exactly one manifest row whose motif column is the comma-joined
concatenation of the collapsed chain-A tokens followed by the collapsed
chain-B tokens. -/
theorem merged_rows_two_chains (rowA rowB : List Score)
    (hA : rowA ≠ []) (hB : rowB ≠ []) :
    mergedRows 50 1 [("d1twfa__A", rowA), ("d1twfa__B", rowB)]
      = [("d1twfa_",
          String.intercalate ","
            ((collapse_ranges "A" (select_indices rowA 50 1)).map Token.render
              ++ (collapse_ranges "B" (select_indices rowB 50 1)).map Token.render))] := by
  have hsA := select_indices_ne_nil rowA 50 1 hA le_rfl (by norm_num)
  have hsB := select_indices_ne_nil rowB 50 1 hB le_rfl (by norm_num)
  unfold mergedRows
  rw [chainSelMap_pair rowA rowB hA hB hsA hsB]
  simp

/-- Witness for `merged_rows_two_chains` at the rows `[2.0, 1.0]` and
`[1.0, 3.0]`. -/
theorem merged_rows_two_chains_witness :
    (([some 2, some 1] : List Score) ≠ [] ∧ ([some 1, some 3] : List Score) ≠ [])
      ∧ mergedRows 50 1 [("d1twfa__A", [some 2, some 1]), ("d1twfa__B", [some 1, some 3])]
          = [("d1twfa_",
              String.intercalate ","
                ((collapse_ranges "A" (select_indices [some 2, some 1] 50 1)).map Token.render
                  ++ (collapse_ranges "B" (select_indices [some 1, some 3] 50 1)).map
                      Token.render))] :=
  ⟨⟨by decide, by decide⟩,
    merged_rows_two_chains [some 2, some 1] [some 1, some 3] (by decide) (by decide)⟩

theorem cleanNorm_eq (raw : String) (lower : Bool) :
    cleanNorm raw lower
      = (if lower = true then sToLower (stripExts (afterLastSep '/' (pyStrip raw)))
        else stripExts (afterLastSep '/' (pyStrip raw))) := rfl

theorem cleanup_id_some_eq (raw : String) (lower : Bool) (L : List String) :
    cleanup_id raw lower (some L)
      = (if cleanNorm raw lower ∈ L then some (cleanNorm raw lower)
        else if sEndsWith (cleanNorm raw lower) "_" = false
            ∧ (cleanNorm raw lower ++ "_") ∈ L
          then some (cleanNorm raw lower ++ "_")
        else if sEndsWith (cleanNorm raw lower) "_" = true
            ∧ sDropRight (cleanNorm raw lower) 1 ∈ L
          then some (sDropRight (cleanNorm raw lower) 1)
        else none) := rfl

theorem splitOnChar_not_mem (sep : Char) (l : List Char) (h : sep ∉ l) :
    splitOnChar sep l = [l] := by
  induction l with
  | nil => rfl
  | cons c rest ih =>
    have hc : ¬ (c = sep) := by
      rintro rfl
      exact h (List.mem_cons_self _ _)
    have hrest : sep ∉ rest := fun hr => h (List.mem_cons_of_mem _ hr)
    simp [splitOnChar, ih hrest, hc]

theorem afterLastSep_not_mem (sep : Char) (s : String) (h : sep ∉ s.data) :
    afterLastSep sep s = s := by
  unfold afterLastSep splitS
  rw [splitOnChar_not_mem sep s.data h]
  rfl

theorem extPass_no_match (x : String)
    (h : ∀ ext ∈ STRUCT_EXTS, sEndsWith (sToLower x) ext = false) :
    extPass x STRUCT_EXTS = (x, false) := by
  have h1 := h ".pdb" (by decide)
  have h2 := h ".cif" (by decide)
  have h3 := h ".ent" (by decide)
  have h4 := h ".gz" (by decide)
  simp [STRUCT_EXTS, extPass, h1, h2, h3, h4]

theorem stripExts_no_match (x : String)
    (h : ∀ ext ∈ STRUCT_EXTS, sEndsWith (sToLower x) ext = false) :
    stripExts x = x := by
  unfold stripExts
  simp [stripExtsFuel, extPass_no_match x h]

/-- C4, counterexample: the ID `" a"` (leading space) satisfies all the
claimed conditions — no `'/'`, no structure-file extension, already
lowercase, member of the lookup set — yet `cleanup_id` strips the
whitespace first, fails every lookup form, and returns `None` instead of
the ID unchanged. -/
theorem cleanup_id_idem_claim_false :
    (" a" : String).data.contains '/' = false
      ∧ (∀ ext ∈ STRUCT_EXTS, sEndsWith (sToLower " a") ext = false)
      ∧ sToLower " a" = " a"
      ∧ (" a" : String) ∈ [" a"]
      ∧ cleanup_id " a" true (some [" a"]) = none := by
  refine ⟨by decide, by decide, by decide, by decide, by decide⟩

/-- C4 (amended): for every ID `x` with no surrounding whitespace
(`x.strip() == x`), no `'/'`, no (case-insensitive) `.pdb`/`.cif`/
`.ent`/`.gz` suffix, already lowercase when lowercasing is enabled, and a
member of the lookup set, `cleanup_id` returns `x` unchanged, and
applying `cleanup_id` twice equals applying it once. -/
theorem cleanup_id_idempotent (x : String) (lower : Bool) (L : List String)
    (h0 : pyStrip x = x)
    (h1 : '/' ∉ x.data)
    (h2 : ∀ ext ∈ STRUCT_EXTS, sEndsWith (sToLower x) ext = false)
    (h3 : lower = true → sToLower x = x)
    (h4 : x ∈ L) :
    cleanup_id x lower (some L) = some x
      ∧ (cleanup_id x lower (some L)).bind
          (fun y => cleanup_id y lower (some L)) = some x := by
  have hnorm : cleanNorm x lower = x := by
    rw [cleanNorm_eq, h0, afterLastSep_not_mem '/' x h1, stripExts_no_match x h2]
    cases lower with
    | false => rfl
    | true => simp only [if_true]; exact h3 rfl
  have hres : cleanup_id x lower (some L) = some x := by
    rw [cleanup_id_some_eq, hnorm, if_pos h4]
  refine ⟨hres, ?_⟩
  rw [hres]
  exact hres

/-- Witness for `cleanup_id_idempotent` at the clean lookup-present ID
`"d1xyz_"`. -/
theorem cleanup_id_idempotent_witness :
    (pyStrip "d1xyz_" = "d1xyz_"
      ∧ '/' ∉ ("d1xyz_" : String).data
      ∧ (∀ ext ∈ STRUCT_EXTS, sEndsWith (sToLower "d1xyz_") ext = false)
      ∧ (true = true → sToLower "d1xyz_" = "d1xyz_")
      ∧ ("d1xyz_" : String) ∈ ["d1xyz_", "d2abc_"])
      ∧ (cleanup_id "d1xyz_" true (some ["d1xyz_", "d2abc_"]) = some "d1xyz_"
          ∧ (cleanup_id "d1xyz_" true (some ["d1xyz_", "d2abc_"])).bind
              (fun y => cleanup_id y true (some ["d1xyz_", "d2abc_"])) = some "d1xyz_") :=
  ⟨⟨by decide, by decide, by decide, fun _ => by decide, by decide⟩,
    cleanup_id_idempotent "d1xyz_" true ["d1xyz_", "d2abc_"] (by decide) (by decide)
      (by decide) (fun _ => by decide) (by decide)⟩

/-- C6: with a lookup set, any ID returned by `cleanup_id` is a member of
the lookup set and is the normalized input exactly, or with one trailing
underscore appended, or with one trailing character (the underscore)
removed; and when none of those three forms is in the lookup set
`cleanup_id` returns `None`. -/
theorem cleanup_id_lookup_sound (raw : String) (lower : Bool) (L : List String) :
    (∀ y, cleanup_id raw lower (some L) = some y →
        y ∈ L
          ∧ (y = cleanNorm raw lower
              ∨ y = cleanNorm raw lower ++ "_"
              ∨ y = sDropRight (cleanNorm raw lower) 1))
      ∧ ((cleanNorm raw lower ∉ L ∧ (cleanNorm raw lower ++ "_") ∉ L
            ∧ sDropRight (cleanNorm raw lower) 1 ∉ L)
          → cleanup_id raw lower (some L) = none) := by
  rw [cleanup_id_some_eq]
  constructor
  · intro y hy
    by_cases h1 : cleanNorm raw lower ∈ L
    · rw [if_pos h1] at hy
      have he := Option.some.inj hy
      exact ⟨he ▸ h1, Or.inl he.symm⟩
    · rw [if_neg h1] at hy
      by_cases h2 : sEndsWith (cleanNorm raw lower) "_" = false
          ∧ (cleanNorm raw lower ++ "_") ∈ L
      · rw [if_pos h2] at hy
        have he := Option.some.inj hy
        exact ⟨he ▸ h2.2, Or.inr (Or.inl he.symm)⟩
      · rw [if_neg h2] at hy
        by_cases h3 : sEndsWith (cleanNorm raw lower) "_" = true
            ∧ sDropRight (cleanNorm raw lower) 1 ∈ L
        · rw [if_pos h3] at hy
          have he := Option.some.inj hy
          exact ⟨he ▸ h3.2, Or.inr (Or.inr he.symm)⟩
        · rw [if_neg h3] at hy
          cases hy
  · rintro ⟨hm1, hm2, hm3⟩
    rw [if_neg hm1, if_neg (fun hc => hm2 hc.2), if_neg (fun hc => hm3 hc.2)]

/-- Witness for `cleanup_id_lookup_sound`: the underscore-appending
repair of `"d1xyz"` against the lookup `["d1xyz_"]`. -/
theorem cleanup_id_lookup_sound_witness :
    ("d1xyz_" : String) ∈ ["d1xyz_"]
      ∧ ("d1xyz_" = cleanNorm "d1xyz" true
          ∨ "d1xyz_" = cleanNorm "d1xyz" true ++ "_"
          ∨ "d1xyz_" = sDropRight (cleanNorm "d1xyz" true) 1) :=
  (cleanup_id_lookup_sound "d1xyz" true ["d1xyz_"]).1 "d1xyz_" (by decide)

/-- C7: the result file `d1abc__A_motif.out` containing the single line
`/p/pdb/d1xyz_.pdb<TAB>3.5`, with no lookup set and default flags,
produces exactly the combined row
`(query "d1abc__a", target "d1xyz_", score 3.5)`. -/
theorem combine_example_row :
    combine {} [("d1abc__A_motif.out", ["/p/pdb/d1xyz_.pdb\t3.5"])]
      = [("d1abc__a", "d1xyz_", (7/2 : ℚ))] := by decide

theorem lineRecord_eq (a : CombineArgs) (q line : String) :
    lineRecord a q line
      = (iter_motif_lines a line).bind (fun ts =>
          (tCleanOf a ts.1).bind (fun t =>
            if a.keep_selfhits = false ∧ q = t then none
            else (pyFloat ts.2).map (fun v => (q, t, v)))) := by
  unfold lineRecord
  cases iter_motif_lines a line with
  | none => rfl
  | some ts =>
    dsimp only [Option.bind]
    cases tCleanOf a ts.1 with
    | none => rfl
    | some t =>
      dsimp only
      cases pyFloat ts.2 with
      | none => split <;> rfl
      | some v => split <;> rfl

theorem lineRecord_not_self (a : CombineArgs) (q line : String)
    (r : String × String × ℚ) (hkeep : a.keep_selfhits = false)
    (h : lineRecord a q line = some r) : r.1 ≠ r.2.1 := by
  rw [lineRecord_eq] at h
  rcases Option.bind_eq_some.mp h with ⟨ts, hts, h2⟩
  rcases Option.bind_eq_some.mp h2 with ⟨t, htc, h3⟩
  by_cases hself : a.keep_selfhits = false ∧ q = t
  · rw [if_pos hself] at h3
    cases h3
  · rw [if_neg hself] at h3
    rcases Option.map_eq_some'.mp h3 with ⟨v, hv, he⟩
    subst he
    intro hq
    exact hself ⟨hkeep, hq⟩

/-- C5: with the keep-selfhits flag unset (the default), no record
emitted by the combiner has equal normalized query and target IDs. -/
theorem combine_no_selfhits (a : CombineArgs) (files : List (String × List String))
    (r : String × String × ℚ) (hkeep : a.keep_selfhits = false)
    (hr : r ∈ combine a files) : r.1 ≠ r.2.1 := by
  unfold combine at hr
  rcases List.mem_flatMap.mp hr with ⟨f, _, hf⟩
  unfold processFile at hf
  rcases hq : queryId a f.1 with _ | q
  · rw [hq] at hf
    cases hf
  · rw [hq] at hf
    rcases List.mem_filterMap.mp hf with ⟨line, _, hl⟩
    exact lineRecord_not_self a q line r hkeep hl

/-- Witness for `combine_no_selfhits` on the one-file input of the C7
example. -/
theorem combine_no_selfhits_witness :
    (({} : CombineArgs).keep_selfhits = false
      ∧ ("d1abc__a", "d1xyz_", (7/2 : ℚ))
          ∈ combine {} [("d1abc__A_motif.out", ["/p/pdb/d1xyz_.pdb\t3.5"])])
      ∧ ("d1abc__a", "d1xyz_", (7/2 : ℚ)).1 ≠ ("d1abc__a", "d1xyz_", (7/2 : ℚ)).2.1 :=
  ⟨⟨rfl, by decide⟩,
    combine_no_selfhits {} [("d1abc__A_motif.out", ["/p/pdb/d1xyz_.pdb\t3.5"])]
      ("d1abc__a", "d1xyz_", (7/2 : ℚ)) rfl (by decide)⟩

theorem lineRecord_badscore (a : CombineArgs) (q line tgt sc : String)
    (h1 : iter_motif_lines a line = some (tgt, sc)) (h2 : pyFloat sc = none) :
    lineRecord a q line = none := by
  rw [lineRecord_eq, h1]
  have hbody : ∀ o : Option String,
      (o.bind (fun t =>
        if a.keep_selfhits = false ∧ q = t then none
        else (pyFloat sc).map (fun v => (q, t, v)))) = none := by
    intro o
    cases o with
    | none => rfl
    | some t => simp [h2]
  exact hbody (tCleanOf a tgt)

/-- C8: an input line whose score field does not parse as a float yields
no record and removing it from a file leaves the combiner output for that
file unchanged — processing of the remaining lines continues. -/
theorem combiner_skips_bad_score (a : CombineArgs) (fname : String)
    (pre suf : List String) (bad tgt sc : String)
    (h1 : iter_motif_lines a bad = some (tgt, sc)) (h2 : pyFloat sc = none) :
    (∀ q, lineRecord a q bad = none)
      ∧ processFile a fname (pre ++ bad :: suf) = processFile a fname (pre ++ suf) := by
  have hnone : ∀ q, lineRecord a q bad = none :=
    fun q => lineRecord_badscore a q bad tgt sc h1 h2
  refine ⟨hnone, ?_⟩
  unfold processFile
  rcases hq : queryId a fname with _ | q
  · rfl
  · simp only []
    rw [List.filterMap_append, List.filterMap_append, List.filterMap_cons, hnone q]

/-- Witness for `combiner_skips_bad_score`: the line `x<TAB>abc` between
two well-formed lines. -/
theorem combiner_skips_bad_score_witness :
    (iter_motif_lines {} "x\tabc" = some ("x", "abc") ∧ pyFloat "abc" = none)
      ∧ ((∀ q, lineRecord {} q "x\tabc" = none)
          ∧ processFile {} "f_motif.out" (["y\t1.0"] ++ "x\tabc" :: ["z\t2.0"])
              = processFile {} "f_motif.out" (["y\t1.0"] ++ ["z\t2.0"])) :=
  ⟨⟨by decide, by decide⟩,
    combiner_skips_bad_score {} "f_motif.out" ["y\t1.0"] ["z\t2.0"] "x\tabc" "x" "abc"
      (by decide) (by decide)⟩

/-- C10: with no lookup set, `cleanup_id` never returns `None`, and every
line accepted by `iter_motif_lines` with a parsing score yields an output
record unless it is a filtered self-hit. -/
theorem no_lookup_never_drops (a : CombineArgs) (ha : a.lookup = none) :
    (∀ raw lower, cleanup_id raw lower none = some (cleanNorm raw lower))
      ∧ ∀ q line tgt sc v,
          iter_motif_lines a line = some (tgt, sc) → pyFloat sc = some v →
          lineRecord a q line = some (q, cleanNorm tgt (!a.no_lower), v)
            ∨ (a.keep_selfhits = false ∧ q = cleanNorm tgt (!a.no_lower)) := by
  refine ⟨fun raw lower => rfl, ?_⟩
  intro q line tgt sc v h1 h2
  have htc : tCleanOf a tgt = some (cleanNorm tgt (!a.no_lower)) := by
    unfold tCleanOf
    rw [ha]
    rfl
  by_cases hself : a.keep_selfhits = false ∧ q = cleanNorm tgt (!a.no_lower)
  · exact Or.inr hself
  · left
    rw [lineRecord_eq, h1]
    simp only [Option.some_bind]
    rw [htc]
    simp only [Option.some_bind]
    rw [if_neg hself, h2]
    rfl

/-- Witness for `no_lookup_never_drops` on the default arguments and the
line `x<TAB>1.5`. -/
theorem no_lookup_never_drops_witness :
    lineRecord {} "q" "x\t1.5"
        = some ("q", cleanNorm "x" (!({} : CombineArgs).no_lower), (3/2 : ℚ))
      ∨ (({} : CombineArgs).keep_selfhits = false
          ∧ "q" = cleanNorm "x" (!({} : CombineArgs).no_lower)) :=
  (no_lookup_never_drops {} rfl).2 "q" "x\t1.5" "x" "1.5" (3/2) (by decide) (by decide)
